import Mathlib

/-!
# wastedonlol: the rate-limited request pipeline and the Limiter

A shallow embedding of `main.go` (getSummoner, getMatches, getMatchDuration,
sumDurationAsHours, ratelimitCheck) and of `ratelimit.go` (Limiter, NewLimiter,
Limiter.Wait), followed by the properties established about them.

Conventions of the embedding.

* A Go `error` result is an `Option GoError`; `none` is the nil error.
* A Go slice is a `List`; the nil slice is the empty list.
* An element of `[]*Match` is a `MatchPtr`; `none` is the nil pointer.
* Go `int` is `Int` wrapped to 64 bits by `wrapInt64`, Go `uint64` is `Nat`
  reduced modulo `2^64` by `wrapUint64`.
* The network is an `Upstream`: a state machine answering each GET.  Every
  function returns a `Run`: its Go result, the effects it performed in order,
  and the state in which it left the upstream.
-/

namespace WastedOnLol

/-! ## Data model of main.go -/

/-- A non-nil Go error value. -/
abbrev GoError := String

/-- Go struct Summoner. -/
structure Summoner where
  AccountID : String
deriving DecidableEq, Repr

/-- Go struct Match. -/
structure Match where
  GameID : Int
deriving DecidableEq, Repr

/-- One element of a slice of Match pointers; none is the nil pointer. -/
abbrev MatchPtr := Option Match

set_option linter.dupNamespace false in
/-- Go struct Matches. -/
structure Matches where
  Matches : List MatchPtr
deriving DecidableEq, Repr

/-- Go struct MatchDuration; the field is a uint64. -/
structure MatchDuration where
  Duration : Nat
deriving DecidableEq, Repr

/-- The package level variables set by the flags. -/
structure Config where
  server : String
  apiKey : String
  summonerName : String
  verbose : Bool
deriving DecidableEq, Repr

/-- Reduction of an integer to the range of a Go int (64 bits, two's complement). -/
def wrapInt64 (x : Int) : Int := (x + 2 ^ 63) % 2 ^ 64 - 2 ^ 63

/-- Reduction of a natural number to the range of a Go uint64. -/
def wrapUint64 (x : Nat) : Nat := x % 2 ^ 64

/-- The address of a GET, kept as the arguments given to fmt.Sprintf for each of the
three address formats of main.go. -/
inductive Url where
  | summonerByName (server summonerName apiKey : String)
  | matchlist (server accountID : String) (beginIndex : Int) (apiKey : String)
  | matchByID (server : String) (matchID : Int) (apiKey : String)
deriving DecidableEq, Repr

/-- The bytes of a response body, described by what json.Unmarshal makes of them for
each of the three target types: an error, or the decoded value. -/
structure Payload where
  asSummoner : Except GoError Summoner
  asMatches : Except GoError Matches
  asMatchDuration : Except GoError MatchDuration

/-- What one GET yields to http.Get followed by ioutil.ReadAll: http.Get fails, or
ReadAll fails on the body, or the body is read. -/
inductive HttpReply where
  | getError (e : GoError)
  | readError (e : GoError)
  | body (raw : Payload)

/-- The upstream service: a state machine that answers each GET and moves on. -/
structure Upstream (σ : Type) where
  get : σ → Url → HttpReply × σ

/-- The two limiters of main.go. -/
inductive RateLimiter where
  | secondRateLimit
  | twoMinuteRateLimit
deriving DecidableEq, Repr

/-- The progress line of sumDurationAsHours, kept as the three arguments of log.Printf. -/
structure LogLine where
  retrieved : Nat
  hours : Nat
  left : Nat
deriving DecidableEq, Repr

/-- The effects a function of main.go performs. -/
inductive Event where
  | wait (limiter : RateLimiter)
  | get (url : Url)
  | log (line : LogLine)
deriving DecidableEq, Repr

/-- The outcome of running a function: its result, its effects in order, and the
upstream state it leaves. -/
structure Run (σ α : Type) where
  result : α
  trace : List Event
  state : σ

/-! ## Operations of main.go -/

/-- Go ratelimitCheck: waits on secondRateLimit, then on twoMinuteRateLimit. The source
discards the error result of both calls of Wait; a wait is an effect that returns. -/
def ratelimitCheck : List Event :=
  [Event.wait RateLimiter.secondRateLimit, Event.wait RateLimiter.twoMinuteRateLimit]

/-- The address requested by getSummoner. -/
def summonerUrl (cfg : Config) : Url :=
  Url.summonerByName cfg.server cfg.summonerName cfg.apiKey

/-- The address requested by one iteration of getMatches. -/
def matchlistUrl (cfg : Config) (summoner : Summoner) (nextIndex : Int) : Url :=
  Url.matchlist cfg.server summoner.AccountID nextIndex cfg.apiKey

/-- The address requested by getMatchDuration. -/
def matchUrl (cfg : Config) (matchID : Int) : Url :=
  Url.matchByID cfg.server matchID cfg.apiKey

/-- Go getSummoner. The result is the pair (summoner pointer, error). -/
def getSummoner {σ : Type} (cfg : Config) (up : Upstream σ) (s : σ) :
    Run σ (Option Summoner × Option GoError) :=
  let tr := ratelimitCheck ++ [Event.get (summonerUrl cfg)]
  match up.get s (summonerUrl cfg) with
  | (HttpReply.getError readError, s1) => ⟨(none, some readError), tr, s1⟩
  | (HttpReply.readError readError, s1) => ⟨(none, some readError), tr, s1⟩
  | (HttpReply.body rawResponse, s1) =>
    match rawResponse.asSummoner with
    | Except.error unmarshalError => ⟨(none, some unmarshalError), tr, s1⟩
    | Except.ok summoner => ⟨(some summoner, none), tr, s1⟩

/-- Go getMatchDuration. The result is the pair (duration, error). -/
def getMatchDuration {σ : Type} (cfg : Config) (up : Upstream σ) (matchID : Int) (s : σ) :
    Run σ (Nat × Option GoError) :=
  let tr := ratelimitCheck ++ [Event.get (matchUrl cfg matchID)]
  match up.get s (matchUrl cfg matchID) with
  | (HttpReply.getError readError, s1) => ⟨(0, some readError), tr, s1⟩
  | (HttpReply.readError readError, s1) => ⟨(0, some readError), tr, s1⟩
  | (HttpReply.body rawResponse, s1) =>
    match rawResponse.asMatchDuration with
    | Except.error unmarshalError => ⟨(0, some unmarshalError), tr, s1⟩
    | Except.ok matchDuration => ⟨(matchDuration.Duration, none), tr, s1⟩

/-- The for loop of Go getMatches, run for at most fuel iterations from the given values
of the slice matches (here matchesAcc) and of nextIndex. The result is none when the loop
is still running after fuel iterations, and otherwise the returned pair (matches, error). -/
def getMatchesLoop {σ : Type} (cfg : Config) (up : Upstream σ) (summoner : Summoner) :
    Nat → List MatchPtr → Int → σ → Run σ (Option (List MatchPtr × Option GoError))
  | 0, _, _, s => ⟨none, [], s⟩
  | fuel + 1, matchesAcc, nextIndex, s =>
    let tr := ratelimitCheck ++ [Event.get (matchlistUrl cfg summoner nextIndex)]
    match up.get s (matchlistUrl cfg summoner nextIndex) with
    | (HttpReply.getError readError, s1) => ⟨some ([], some readError), tr, s1⟩
    | (HttpReply.readError readError, s1) => ⟨some ([], some readError), tr, s1⟩
    | (HttpReply.body rawResponse, s1) =>
      -- both http.Get and ioutil.ReadAll left readError nil
      let readError : Option GoError := none
      match rawResponse.asMatches with
      | Except.error _ => ⟨some ([], readError), tr, s1⟩
      | Except.ok responseMatches =>
        let matches1 := matchesAcc ++ responseMatches.Matches
        if responseMatches.Matches.length ≠ 100 then
          ⟨some (matches1, none), tr, s1⟩
        else
          let r := getMatchesLoop cfg up summoner fuel matches1 (wrapInt64 (nextIndex + 100)) s1
          ⟨r.result, tr ++ r.trace, r.state⟩

/-- Go getMatches, its loop bounded by fuel iterations. The argument summoner is the value
behind the pointer, which main passes only when getSummoner returned it with a nil error. -/
def getMatches {σ : Type} (fuel : Nat) (cfg : Config) (up : Upstream σ) (summoner : Summoner)
    (s : σ) : Run σ (Option (List MatchPtr × Option GoError)) :=
  getMatchesLoop cfg up summoner fuel [] 0 s

/-- The range loop of Go sumDurationAsHours over the rest of the slice, at position index,
with the running total duration; len is the length of the whole slice. The result is none
when a nil element is dereferenced (a run-time panic), and otherwise the returned pair
(hours, error). -/
def sumDurationLoop {σ : Type} (cfg : Config) (up : Upstream σ) (len : Nat) :
    Nat → List MatchPtr → Nat → σ → Run σ (Option (Nat × Option GoError))
  | _, [], duration, s => ⟨some (duration / 60 / 60, none), [], s⟩
  | _, none :: _, _, s => ⟨none, [], s⟩
  | index, some m :: rest, duration, s =>
    let r := getMatchDuration cfg up m.GameID s
    match r.result with
    | (_, some err) => ⟨some (0, some err), r.trace, r.state⟩
    | (matchDuration, none) =>
      let logs :=
        if cfg.verbose && index % 19 == 0 then
          [Event.log ⟨index + 1, duration / 60 / 60, len - index + 1⟩]
        else []
      let r2 := sumDurationLoop cfg up len (index + 1) rest
        (wrapUint64 (duration + matchDuration)) r.state
      ⟨r2.result, r.trace ++ logs ++ r2.trace, r2.state⟩

/-- Go sumDurationAsHours. -/
def sumDurationAsHours {σ : Type} (cfg : Config) (up : Upstream σ) (history : List MatchPtr)
    (s : σ) : Run σ (Option (Nat × Option GoError)) :=
  sumDurationLoop cfg up history.length 0 history 0 s

/-! ## The conversation between getMatches and the upstream

The definitions below describe what the upstream answers along the sequence of list
calls that getMatches makes; the statements about pagination are phrased with them. -/

section Pagination

variable {σ : Type}

/-- The value of nextIndex after n full pages, starting from idx. -/
def offsetAt : Nat → Int → Int
  | 0, idx => idx
  | n + 1, idx => offsetAt n (wrapInt64 (idx + 100))

/-- The answer of the upstream to list call number n (counted from 0) of a pagination
that starts in state s at offset idx and raises the offset as getMatches does. -/
def replyAt (cfg : Config) (up : Upstream σ) (summoner : Summoner) : Nat → σ → Int → HttpReply
  | 0, s, idx => (up.get s (matchlistUrl cfg summoner idx)).1
  | n + 1, s, idx =>
    replyAt cfg up summoner n (up.get s (matchlistUrl cfg summoner idx)).2 (wrapInt64 (idx + 100))

/-- The state of the upstream after it answered the first n list calls. -/
def stateAt (cfg : Config) (up : Upstream σ) (summoner : Summoner) : Nat → σ → Int → σ
  | 0, s, _ => s
  | n + 1, s, idx =>
    stateAt cfg up summoner n (up.get s (matchlistUrl cfg summoner idx)).2 (wrapInt64 (idx + 100))

/-- The reply is a body that json.Unmarshal decodes into the page p. -/
def IsPage (reply : HttpReply) (p : List MatchPtr) : Prop :=
  ∃ raw, reply = HttpReply.body raw ∧ raw.asMatches = Except.ok ⟨p⟩

/-- The page a reply decodes to, and the empty page for a reply that is no page. -/
def pageOf : HttpReply → List MatchPtr
  | HttpReply.body raw =>
    match raw.asMatches with
    | Except.ok m => m.Matches
    | Except.error _ => []
  | _ => []

/-- The concatenation, in request order, of the pages answered to the first n list calls. -/
def pagesUpTo (cfg : Config) (up : Upstream σ) (summoner : Summoner) : Nat → σ → Int →
    List MatchPtr
  | 0, _, _ => []
  | n + 1, s, idx =>
    pageOf (up.get s (matchlistUrl cfg summoner idx)).1 ++
      pagesUpTo cfg up summoner n (up.get s (matchlistUrl cfg summoner idx)).2
        (wrapInt64 (idx + 100))

/-- The effects of one gated GET: the two waits of ratelimitCheck, then the GET. -/
def gated (url : Url) : List Event := ratelimitCheck ++ [Event.get url]

/-- The GETs of a trace, in order. -/
def gets : List Event → List Url
  | [] => []
  | Event.get url :: rest => url :: gets rest
  | _ :: rest => gets rest

/-- The addresses of the first n list calls of a pagination that starts at offset idx. -/
def listUrls (cfg : Config) (summoner : Summoner) : Nat → Int → List Url
  | 0, _ => []
  | n + 1, idx => matchlistUrl cfg summoner idx :: listUrls cfg summoner n (wrapInt64 (idx + 100))

end Pagination

/-! ## Synthetic upstreams, used to run the code on concrete inputs -/

/-- A body that decodes to the given match page and to nothing else. -/
def pagePayload (p : List MatchPtr) : Payload :=
  ⟨Except.error "not a summoner", Except.ok ⟨p⟩, Except.error "not a match"⟩

/-- A body that decodes to the given match duration and to nothing else. -/
def durationPayload (d : Nat) : Payload :=
  ⟨Except.error "not a summoner", Except.error "not a match list", Except.ok ⟨d⟩⟩

/-- A body that json.Unmarshal rejects for every target type. -/
def garbagePayload : Payload :=
  ⟨Except.error "invalid character", Except.error "invalid character",
    Except.error "invalid character"⟩

/-- An upstream that answers call number n with entry n of a fixed script, and with a
transport failure once the script is used up. Its state counts the calls answered. -/
def scripted (script : List HttpReply) : Upstream Nat :=
  ⟨fun n _ => (script.getD n (HttpReply.getError "connection refused"), n + 1)⟩

/-- A page of n matches, all with the given game id. -/
def pageOfSize (n : Nat) (gameID : Int) : List MatchPtr := List.replicate n (some ⟨gameID⟩)

/-- A configuration for the concrete runs. -/
def cfg0 : Config := ⟨"euw1", "key", "Faker", false⟩

/-- An account for the concrete runs. -/
def summoner0 : Summoner := ⟨"abc123"⟩

/-- The upstream that answers with pages of 100, 100 and 37 entries. -/
def upstream237 : Upstream Nat :=
  scripted [HttpReply.body (pagePayload (pageOfSize 100 1)),
    HttpReply.body (pagePayload (pageOfSize 100 2)),
    HttpReply.body (pagePayload (pageOfSize 37 3))]

/-! ## The conversation between sumDurationAsHours and the upstream -/

section Durations

variable {σ : Type}

/-- The answers of the upstream to the duration fetches for the given matches, issued in
order from state s, and the state it is left in. -/
def serveDurations (cfg : Config) (up : Upstream σ) : List Match → σ → List HttpReply × σ
  | [], s => ([], s)
  | m :: rest, s =>
    ((up.get s (matchUrl cfg m.GameID)).1 ::
        (serveDurations cfg up rest (up.get s (matchUrl cfg m.GameID)).2).1,
      (serveDurations cfg up rest (up.get s (matchUrl cfg m.GameID)).2).2)

/-- The reply is a body that json.Unmarshal decodes into a match of duration d. -/
def IsDuration (reply : HttpReply) (d : Nat) : Prop :=
  ∃ raw, reply = HttpReply.body raw ∧ raw.asMatchDuration = Except.ok ⟨d⟩

/-- The duration fetch fails with the error e: http.Get fails, or reading the body fails,
or json.Unmarshal rejects the body as a match. -/
def DurationFails (reply : HttpReply) (e : GoError) : Prop :=
  reply = HttpReply.getError e ∨ reply = HttpReply.readError e ∨
    ∃ raw, reply = HttpReply.body raw ∧ raw.asMatchDuration = Except.error e

/-- The running total of sumDurationAsHours after adding the given durations in order. -/
def addDurations (duration : Nat) (ds : List Nat) : Nat :=
  ds.foldl (fun acc d => wrapUint64 (acc + d)) duration

/-- Whether an effect is a progress line. -/
def isLog : Event → Bool
  | Event.log _ => true
  | _ => false

/-- A trace with its progress lines removed. -/
def withoutLogs (tr : List Event) : List Event := tr.filter (fun e => !isLog e)

end Durations

/-- The upstream for five duration fetches of which the third fails in transport. -/
def upstreamThirdFails : Upstream Nat :=
  scripted [HttpReply.body (durationPayload 1800), HttpReply.body (durationPayload 2400),
    HttpReply.getError "connection reset", HttpReply.body (durationPayload 1500),
    HttpReply.body (durationPayload 3000)]

/-- The upstream that answers two duration fetches with 3599 and 3601 seconds. -/
def upstreamTwoHours : Upstream Nat :=
  scripted [HttpReply.body (durationPayload 3599), HttpReply.body (durationPayload 3601)]

/-- The configuration with the verbose flag set to v and everything else unchanged. -/
def withVerbose (cfg : Config) (v : Bool) : Config :=
  ⟨cfg.server, cfg.apiKey, cfg.summonerName, v⟩

/-- An upstream that gives the same answer to every GET. -/
def constantUpstream (reply : HttpReply) : Upstream Unit :=
  ⟨fun s _ => (reply, s)⟩

/-- The upstream that answers every list call with a page of 101 entries. -/
def upstream101 : Upstream Unit :=
  constantUpstream (HttpReply.body (pagePayload (pageOfSize 101 1)))

/-- The upstream that answers with a page of 100 entries and then with an empty page. -/
def upstream100 : Upstream Nat :=
  scripted [HttpReply.body (pagePayload (pageOfSize 100 1)), HttpReply.body (pagePayload [])]

/-- The upstream whose first list page is full and whose second body is not a match page. -/
def upstreamGarbageSecond : Upstream Nat :=
  scripted [HttpReply.body (pagePayload (pageOfSize 100 1)), HttpReply.body garbagePayload]

/-! ## ratelimit.go: the Limiter

The Limiter is shared by two goroutines: the caller of Wait and the ticker goroutine
started by NewLimiter. Each goroutine is a program counter over its statements; a run
interleaves the two, one statement at a time. Time is abstracted: the ticker may
receive its next tick whenever it waits for one. -/

/-- Go struct Limiter. The field lockHeld is the state of the mutex behind lock. -/
structure Limiter where
  triesLeft : Int
  locked : Bool
  lockHeld : Bool
deriving DecidableEq, Repr

/-- The statement of Limiter.Wait that the caller executes next. A caller that has
returned from Wait stands at the first statement of its next call. -/
inductive WaitPc where
  /-- First statement: limiter.lock.Lock(). -/
  | lock
  /-- Statement limiter.locked = true. -/
  | setLocked
  /-- The test limiter.triesLeft <= 0. -/
  | check
  /-- The limiter.lock.Lock() inside the if. -/
  | lockAgain
  /-- Statement limiter.triesLeft--. -/
  | decrement
  /-- Deferred limiter.locked = false. -/
  | clearLocked
  /-- Deferred limiter.lock.Unlock(), after which Wait returns. -/
  | unlock
deriving DecidableEq, Repr

/-- The statement of the ticker goroutine of NewLimiter that it executes next. -/
inductive TickerPc where
  /-- The receive from resetTicker.C. -/
  | receive
  /-- Statement limiter.triesLeft = tries. -/
  | reset
  /-- The test limiter.locked. -/
  | test
  /-- Statement limiter.locked = false. -/
  | clearLocked
  /-- Statement limiter.lock.Unlock(). -/
  | unlock
deriving DecidableEq, Repr

/-- What an observer of a run sees: a reset tick, or a call of Wait returning. -/
inductive Obs where
  | tick
  | waitReturned
deriving DecidableEq, Repr

/-- The two goroutines. -/
inductive Goroutine where
  | caller
  | ticker
deriving DecidableEq, Repr

/-- A limiter together with its two goroutines. The flag fatal is set when a goroutine
unlocks a mutex that is not held, which aborts the Go program. -/
structure LimiterSystem where
  tries : Int
  limiter : Limiter
  caller : WaitPc
  ticker : TickerPc
  fatal : Bool
  observed : List Obs
deriving DecidableEq, Repr

/-- Go NewLimiter: triesLeft is tries, the mutex is free, the ticker goroutine waits for
its first tick, and the caller is about to call Wait. -/
def NewLimiter (tries : Int) : LimiterSystem :=
  ⟨tries, ⟨tries, false, false⟩, WaitPc.lock, TickerPc.receive, false, []⟩

/-- One statement of Limiter.Wait. The result is none when the caller cannot move: it is
blocked in Lock on a held mutex, or the program has aborted. -/
def Limiter.Wait (st : LimiterSystem) : Option LimiterSystem :=
  if st.fatal then none else
  match st.caller with
  | WaitPc.lock =>
    if st.limiter.lockHeld then none
    else some ⟨st.tries, ⟨st.limiter.triesLeft, st.limiter.locked, true⟩, WaitPc.setLocked,
      st.ticker, st.fatal, st.observed⟩
  | WaitPc.setLocked =>
    some ⟨st.tries, ⟨st.limiter.triesLeft, true, st.limiter.lockHeld⟩, WaitPc.check,
      st.ticker, st.fatal, st.observed⟩
  | WaitPc.check =>
    if st.limiter.triesLeft ≤ 0 then
      some ⟨st.tries, st.limiter, WaitPc.lockAgain, st.ticker, st.fatal, st.observed⟩
    else
      some ⟨st.tries, st.limiter, WaitPc.decrement, st.ticker, st.fatal, st.observed⟩
  | WaitPc.lockAgain =>
    if st.limiter.lockHeld then none
    else some ⟨st.tries, ⟨st.limiter.triesLeft, st.limiter.locked, true⟩, WaitPc.decrement,
      st.ticker, st.fatal, st.observed⟩
  | WaitPc.decrement =>
    some ⟨st.tries, ⟨wrapInt64 (st.limiter.triesLeft - 1), st.limiter.locked,
      st.limiter.lockHeld⟩, WaitPc.clearLocked, st.ticker, st.fatal, st.observed⟩
  | WaitPc.clearLocked =>
    some ⟨st.tries, ⟨st.limiter.triesLeft, false, st.limiter.lockHeld⟩, WaitPc.unlock,
      st.ticker, st.fatal, st.observed⟩
  | WaitPc.unlock =>
    if st.limiter.lockHeld then
      some ⟨st.tries, ⟨st.limiter.triesLeft, st.limiter.locked, false⟩, WaitPc.lock,
        st.ticker, st.fatal, st.observed ++ [Obs.waitReturned]⟩
    else
      some ⟨st.tries, st.limiter, st.caller, st.ticker, true, st.observed⟩

/-- One statement of the ticker goroutine of NewLimiter. The result is none when the
program has aborted. -/
def tickerStep (st : LimiterSystem) : Option LimiterSystem :=
  if st.fatal then none else
  match st.ticker with
  | TickerPc.receive =>
    some ⟨st.tries, st.limiter, st.caller, TickerPc.reset, st.fatal,
      st.observed ++ [Obs.tick]⟩
  | TickerPc.reset =>
    some ⟨st.tries, ⟨st.tries, st.limiter.locked, st.limiter.lockHeld⟩, st.caller,
      TickerPc.test, st.fatal, st.observed⟩
  | TickerPc.test =>
    if st.limiter.locked then
      some ⟨st.tries, st.limiter, st.caller, TickerPc.clearLocked, st.fatal, st.observed⟩
    else
      some ⟨st.tries, st.limiter, st.caller, TickerPc.receive, st.fatal, st.observed⟩
  | TickerPc.clearLocked =>
    some ⟨st.tries, ⟨st.limiter.triesLeft, false, st.limiter.lockHeld⟩, st.caller,
      TickerPc.unlock, st.fatal, st.observed⟩
  | TickerPc.unlock =>
    if st.limiter.lockHeld then
      some ⟨st.tries, ⟨st.limiter.triesLeft, st.limiter.locked, false⟩, st.caller,
        TickerPc.receive, st.fatal, st.observed⟩
    else
      some ⟨st.tries, st.limiter, st.caller, st.ticker, true, st.observed⟩

/-- One statement of the chosen goroutine. -/
def stepOf (g : Goroutine) (st : LimiterSystem) : Option LimiterSystem :=
  match g with
  | Goroutine.caller => Limiter.Wait st
  | Goroutine.ticker => tickerStep st

/-- A run: the goroutines move in the order of the schedule. The result is none when the
schedule asks a goroutine to move that cannot. -/
def runSchedule : List Goroutine → LimiterSystem → Option LimiterSystem
  | [], st => some st
  | g :: rest, st =>
    match stepOf g st with
    | none => none
    | some st1 => runSchedule rest st1

/-- The number of calls of Wait that returned in each period of a run, in order: before
the first reset tick, between the first and the second tick, and so on; the last entry
counts the returns after the last tick. -/
def returnsPerPeriod : List Obs → List Nat
  | [] => [0]
  | Obs.tick :: rest => 0 :: returnsPerPeriod rest
  | Obs.waitReturned :: rest =>
    match returnsPerPeriod rest with
    | [] => [1]
    | c :: cs => (c + 1) :: cs

/-- A schedule in which a tick falls inside a call of Wait that does not block: the caller
locks and sets locked; the ticker runs a whole reset, sees locked set and unlocks the
mutex; the caller goes on to its deferred Unlock. -/
def tickInsideWait : List Goroutine :=
  [Goroutine.caller, Goroutine.caller,
    Goroutine.ticker, Goroutine.ticker, Goroutine.ticker, Goroutine.ticker, Goroutine.ticker,
    Goroutine.caller, Goroutine.caller, Goroutine.caller, Goroutine.caller]

/-- A schedule in which the ticker sees locked set by one call of Wait and unlocks the
mutex during the next call. After the tick and the reset the caller starts its first
call; the ticker tests locked; the caller finishes the first call and runs the second up
to its blocking Lock; the ticker clears locked and unlocks; the caller finishes the second
call; the ticker receives its second tick. -/
def staleUnlock : List Goroutine :=
  [Goroutine.ticker, Goroutine.ticker,
    Goroutine.caller, Goroutine.caller,
    Goroutine.ticker,
    Goroutine.caller, Goroutine.caller, Goroutine.caller, Goroutine.caller,
    Goroutine.caller, Goroutine.caller, Goroutine.caller,
    Goroutine.ticker, Goroutine.ticker,
    Goroutine.caller, Goroutine.caller, Goroutine.caller, Goroutine.caller,
    Goroutine.ticker]

/-! ## Lemmas on pagination -/

variable {σ : Type}

section PaginationLemmas

theorem wrapInt64_of_range (x : Int) (h0 : -(2 : Int) ^ 63 ≤ x) (h1 : x < 2 ^ 63) :
    wrapInt64 x = x := by
  unfold wrapInt64
  rw [Int.emod_eq_of_lt (by omega) (by omega)]
  omega

theorem gets_append (a b : List Event) : gets (a ++ b) = gets a ++ gets b := by
  induction a with
  | nil => rfl
  | cons e rest ih => cases e <;> simp [gets, ih]

theorem gets_gated (url : Url) : gets (gated url) = [url] := rfl

theorem gets_flatMap_gated (urls : List Url) : gets (urls.flatMap gated) = urls := by
  induction urls with
  | nil => rfl
  | cons u rest ih => simp [List.flatMap_cons, gets_append, gets_gated, ih]

/-- While the upstream answers full pages, the loop keeps going: n full pages use up n
iterations, n gated GETs, and leave the loop with the pages appended. -/
theorem getMatchesLoop_full (cfg : Config) (up : Upstream σ) (summoner : Summoner) (f : Nat) :
    ∀ (n : Nat) (acc : List MatchPtr) (idx : Int) (s : σ),
      (∀ i, i < n → ∃ p, IsPage (replyAt cfg up summoner i s idx) p ∧ p.length = 100) →
      getMatchesLoop cfg up summoner (f + n) acc idx s =
        ⟨(getMatchesLoop cfg up summoner f (acc ++ pagesUpTo cfg up summoner n s idx)
            (offsetAt n idx) (stateAt cfg up summoner n s idx)).result,
          (listUrls cfg summoner n idx).flatMap gated ++
            (getMatchesLoop cfg up summoner f (acc ++ pagesUpTo cfg up summoner n s idx)
              (offsetAt n idx) (stateAt cfg up summoner n s idx)).trace,
          (getMatchesLoop cfg up summoner f (acc ++ pagesUpTo cfg up summoner n s idx)
            (offsetAt n idx) (stateAt cfg up summoner n s idx)).state⟩ := by
  intro n
  induction n with
  | zero =>
    intro acc idx s _
    simp [pagesUpTo, offsetAt, stateAt, listUrls]
  | succ n ih =>
    intro acc idx s h
    have h0 := h 0 (Nat.succ_pos n)
    have hs : ∀ i, i < n → ∃ p, IsPage (replyAt cfg up summoner i
        (up.get s (matchlistUrl cfg summoner idx)).2 (wrapInt64 (idx + 100))) p ∧
        p.length = 100 := fun i hi => h (i + 1) (Nat.succ_lt_succ hi)
    obtain ⟨p, ⟨raw, hr, hraw⟩, hp⟩ := h0
    simp only [replyAt] at hr
    have ih1 := ih (acc ++ p) (wrapInt64 (idx + 100))
      (up.get s (matchlistUrl cfg summoner idx)).2 hs
    rcases hg : up.get s (matchlistUrl cfg summoner idx) with ⟨reply, s1⟩
    rw [hg] at hr ih1
    simp only at hr ih1
    subst hr
    show getMatchesLoop cfg up summoner (f + n + 1) acc idx s = _
    simp only [getMatchesLoop, hg, hraw, hp, pagesUpTo, offsetAt, stateAt, listUrls, pageOf,
      List.flatMap_cons, ih1, gated]
    simp

theorem get_stateAt (cfg : Config) (up : Upstream σ) (summoner : Summoner) :
    ∀ (n : Nat) (s : σ) (idx : Int),
      up.get (stateAt cfg up summoner n s idx) (matchlistUrl cfg summoner (offsetAt n idx)) =
        (replyAt cfg up summoner n s idx, stateAt cfg up summoner (n + 1) s idx) := by
  intro n
  induction n with
  | zero => intro s idx; rfl
  | succ n ih => intro s idx; exact ih _ _

theorem listUrls_succ (cfg : Config) (summoner : Summoner) :
    ∀ (n : Nat) (idx : Int),
      listUrls cfg summoner (n + 1) idx =
        listUrls cfg summoner n idx ++ [matchlistUrl cfg summoner (offsetAt n idx)] := by
  intro n
  induction n with
  | zero => intro idx; rfl
  | succ n ih =>
    intro idx
    have h := ih (wrapInt64 (idx + 100))
    simp only [listUrls, offsetAt, List.cons_append] at h ⊢
    rw [h]

theorem listUrls_length (cfg : Config) (summoner : Summoner) :
    ∀ (n : Nat) (idx : Int), (listUrls cfg summoner n idx).length = n := by
  intro n
  induction n with
  | zero => intro idx; rfl
  | succ n ih => intro idx; simp [listUrls, ih]

theorem pagesUpTo_succ (cfg : Config) (up : Upstream σ) (summoner : Summoner) :
    ∀ (n : Nat) (s : σ) (idx : Int),
      pagesUpTo cfg up summoner (n + 1) s idx =
        pagesUpTo cfg up summoner n s idx ++ pageOf (replyAt cfg up summoner n s idx) := by
  intro n
  induction n with
  | zero => intro s idx; simp [pagesUpTo, replyAt]
  | succ n ih =>
    intro s idx
    have h := ih (up.get s (matchlistUrl cfg summoner idx)).2 (wrapInt64 (idx + 100))
    simp only [pagesUpTo, replyAt, List.append_assoc] at h ⊢
    rw [h]

theorem pageOf_isPage {reply : HttpReply} {p : List MatchPtr} (h : IsPage reply p) :
    pageOf reply = p := by
  obtain ⟨raw, hr, hraw⟩ := h
  subst hr
  simp [pageOf, hraw]

/-- The run up to and including list call number n, when the calls before it were
answered with full pages: the effects are n + 1 gated GETs and the upstream is left in
the state after n + 1 calls, whatever call n is answered. The result is that of the
single iteration on the reply to call n. -/
theorem getMatchesLoop_reach (cfg : Config) (up : Upstream σ) (summoner : Summoner)
    (f n : Nat) (acc : List MatchPtr) (idx : Int) (s : σ)
    (hprev : ∀ i, i < n → ∃ p, IsPage (replyAt cfg up summoner i s idx) p ∧ p.length = 100) :
    getMatchesLoop cfg up summoner (f + 1 + n) acc idx s =
      match replyAt cfg up summoner n s idx with
      | HttpReply.getError e =>
        ⟨some ([], some e), (listUrls cfg summoner (n + 1) idx).flatMap gated,
          stateAt cfg up summoner (n + 1) s idx⟩
      | HttpReply.readError e =>
        ⟨some ([], some e), (listUrls cfg summoner (n + 1) idx).flatMap gated,
          stateAt cfg up summoner (n + 1) s idx⟩
      | HttpReply.body raw =>
        match raw.asMatches with
        | Except.error _ =>
          ⟨some ([], none), (listUrls cfg summoner (n + 1) idx).flatMap gated,
            stateAt cfg up summoner (n + 1) s idx⟩
        | Except.ok m =>
          if m.Matches.length ≠ 100 then
            ⟨some (acc ++ pagesUpTo cfg up summoner n s idx ++ m.Matches, none),
              (listUrls cfg summoner (n + 1) idx).flatMap gated,
              stateAt cfg up summoner (n + 1) s idx⟩
          else
            ⟨(getMatchesLoop cfg up summoner f
                (acc ++ pagesUpTo cfg up summoner (n + 1) s idx) (offsetAt (n + 1) idx)
                (stateAt cfg up summoner (n + 1) s idx)).result,
              (listUrls cfg summoner (n + 1) idx).flatMap gated ++
                (getMatchesLoop cfg up summoner f
                  (acc ++ pagesUpTo cfg up summoner (n + 1) s idx) (offsetAt (n + 1) idx)
                  (stateAt cfg up summoner (n + 1) s idx)).trace,
              (getMatchesLoop cfg up summoner f
                (acc ++ pagesUpTo cfg up summoner (n + 1) s idx) (offsetAt (n + 1) idx)
                (stateAt cfg up summoner (n + 1) s idx)).state⟩ := by
  rw [getMatchesLoop_full cfg up summoner (f + 1) n acc idx s hprev]
  simp only [getMatchesLoop, get_stateAt, listUrls_succ, List.flatMap_append,
    List.flatMap_cons, List.flatMap_nil, List.append_nil, pagesUpTo_succ]
  cases hr : replyAt cfg up summoner n s idx with
  | getError e => simp [gated]
  | readError e => simp [gated]
  | body raw =>
    cases hraw : raw.asMatches with
    | error e => simp [gated, hraw]
    | ok m =>
      by_cases hlen : m.Matches.length = 100
      · have hoff : wrapInt64 (offsetAt n idx + 100) = offsetAt (n + 1) idx := by
          clear hprev hr
          induction n generalizing idx with
          | zero => rfl
          | succ n ih => exact ih _
        simp [gated, hlen, pageOf, hraw, hoff]
      · simp [gated, hlen, hraw]

theorem listUrls_explicit (cfg : Config) (summoner : Summoner) :
    ∀ (n j : Nat), 100 * ((j : Int) + n) < 2 ^ 63 + 100 →
      listUrls cfg summoner n (100 * (j : Int)) =
        (List.range' j n).map (fun (i : Nat) => matchlistUrl cfg summoner (100 * (i : Int))) := by
  intro n
  induction n with
  | zero => intro j _; rfl
  | succ n ih =>
    intro j h
    simp only [listUrls, List.range'_succ, List.map_cons]
    congr 1
    cases n with
    | zero => rfl
    | succ m =>
      have hw : wrapInt64 (100 * (j : Int) + 100) = 100 * ((j + 1 : Nat) : Int) := by
        rw [wrapInt64_of_range _ (by push_cast at h ⊢; omega) (by push_cast at h ⊢; omega)]
        push_cast
        ring
      rw [hw]
      exact ih (j + 1) (by push_cast at h ⊢; omega)

theorem pagesUpTo_of_pages (cfg : Config) (up : Upstream σ) (summoner : Summoner) :
    ∀ (pages : List (List MatchPtr)) (s : σ) (idx : Int),
      (∀ i (h : i < pages.length), IsPage (replyAt cfg up summoner i s idx) (pages.get ⟨i, h⟩)) →
      pagesUpTo cfg up summoner pages.length s idx = pages.flatten := by
  intro pages
  induction pages with
  | nil => intro s idx _; rfl
  | cons p rest ih =>
    intro s idx h
    have h0 := h 0 (by simp)
    have hrest := ih (up.get s (matchlistUrl cfg summoner idx)).2 (wrapInt64 (idx + 100))
      (fun i hi => h (i + 1) (by simpa using hi))
    simp only [List.length_cons, pagesUpTo, List.flatten_cons, hrest]
    congr 1
    exact pageOf_isPage h0

theorem flatten_length_full (pages : List (List MatchPtr)) (h : ∀ p ∈ pages, p.length = 100) :
    pages.flatten.length = 100 * pages.length := by
  induction pages with
  | nil => rfl
  | cons p rest ih =>
    have hp := h p (by simp)
    have hr := ih (fun q hq => h q (by simp [hq]))
    simp only [List.flatten_cons, List.length_append, List.length_cons, hp, hr]
    omega

/-- A failure of http.Get or of ioutil.ReadAll at list call n, after full pages, makes
getMatches return that error with a nil history after n + 1 GETs. -/
theorem getMatches_transport_or_read_failure (cfg : Config) (up : Upstream σ)
    (summoner : Summoner) (s : σ) (n : Nat) (e : GoError)
    (hprev : ∀ i, i < n → ∃ p, IsPage (replyAt cfg up summoner i s 0) p ∧ p.length = 100)
    (hfail : replyAt cfg up summoner n s 0 = HttpReply.getError e ∨
      replyAt cfg up summoner n s 0 = HttpReply.readError e)
    (fuel : Nat) (hfuel : n < fuel) :
    (getMatches fuel cfg up summoner s).result = some ([], some e) ∧
    (gets (getMatches fuel cfg up summoner s).trace).length = n + 1 := by
  obtain ⟨f, rfl⟩ : ∃ f, fuel = f + 1 + n := ⟨fuel - (n + 1), by omega⟩
  unfold getMatches
  rw [getMatchesLoop_reach cfg up summoner f n [] 0 s hprev]
  rcases hfail with h | h <;> rw [h] <;> simp [gets_flatMap_gated, listUrls_length]

end PaginationLemmas

/-! ## Pagination (getMatches) -/

/-- C1. If the upstream answers the first k list calls with pages of exactly 100 entries
(the pages of full, k their number) and call k + 1 with a page last of fewer than 100
entries, then getMatches, given fuel for more than k iterations, returns the
concatenation of the k + 1 pages in request order with a nil error; its effects are
exactly k + 1 gated GETs, with beginIndex 0, 100, ..., 100 * k in that order; and the
history has 100 * k + r entries, r the length of last. The bound on k says that the
offsets are values of a Go int. -/
theorem getMatches_pagination (cfg : Config) (up : Upstream σ) (summoner : Summoner) (s : σ)
    (full : List (List MatchPtr)) (last : List MatchPtr)
    (hfull : ∀ p ∈ full, p.length = 100) (hlast : last.length < 100)
    (hrange : 100 * (full.length : Int) < 2 ^ 63)
    (hup : ∀ i (h : i < (full ++ [last]).length),
      IsPage (replyAt cfg up summoner i s 0) ((full ++ [last]).get ⟨i, h⟩))
    (fuel : Nat) (hfuel : full.length < fuel) :
    (getMatches fuel cfg up summoner s).result = some ((full ++ [last]).flatten, none) ∧
    (getMatches fuel cfg up summoner s).trace =
      ((List.range (full.length + 1)).map
        (fun (i : Nat) => matchlistUrl cfg summoner (100 * (i : Int)))).flatMap gated ∧
    gets (getMatches fuel cfg up summoner s).trace =
      (List.range (full.length + 1)).map
        (fun (i : Nat) => matchlistUrl cfg summoner (100 * (i : Int))) ∧
    (gets (getMatches fuel cfg up summoner s).trace).length = full.length + 1 ∧
    ((full ++ [last]).flatten).length = 100 * full.length + last.length := by
  have hfullpage : ∀ i (h : i < full.length),
      IsPage (replyAt cfg up summoner i s 0) (full.get ⟨i, h⟩) := by
    intro i h
    have := hup i (by simp; omega)
    simpa [List.getElem_append_left h] using this
  have hprev : ∀ i, i < full.length →
      ∃ p, IsPage (replyAt cfg up summoner i s 0) p ∧ p.length = 100 :=
    fun i h => ⟨_, hfullpage i h, hfull _ (List.get_mem _ _ _)⟩
  have hk : IsPage (replyAt cfg up summoner full.length s 0) last := by
    have := hup full.length (by simp)
    simpa using this
  have hurls : listUrls cfg summoner (full.length + 1) 0 =
      (List.range (full.length + 1)).map
        (fun (i : Nat) => matchlistUrl cfg summoner (100 * (i : Int))) := by
    have := listUrls_explicit cfg summoner (full.length + 1) 0 (by push_cast; omega)
    simpa [List.range_eq_range'] using this
  have hrun : getMatches fuel cfg up summoner s =
      ⟨some ((full ++ [last]).flatten, none),
        (listUrls cfg summoner (full.length + 1) 0).flatMap gated,
        stateAt cfg up summoner (full.length + 1) s 0⟩ := by
    obtain ⟨f, rfl⟩ : ∃ f, fuel = f + 1 + full.length := ⟨fuel - (full.length + 1), by omega⟩
    obtain ⟨raw, hr, hraw⟩ := hk
    unfold getMatches
    rw [getMatchesLoop_reach cfg up summoner f full.length [] 0 s hprev, hr]
    have hne : ¬ last.length = 100 := by omega
    simp [hraw, hne, pagesUpTo_of_pages cfg up summoner full s 0 hfullpage]
  rw [hrun, hurls]
  refine ⟨rfl, rfl, gets_flatMap_gated _, ?_, ?_⟩
  · rw [gets_flatMap_gated]; simp
  · simp [flatten_length_full full hfull]

/-- Witness for C1: pages of 100, 100 and 37 entries give three calls at the offsets 0, 100
and 200 and a history of 237 entries; pages of 100 and 0 entries give two calls at the
offsets 0 and 100 and a history of 100 entries. -/
theorem getMatches_pagination_witness :
    ((getMatches 3 cfg0 upstream237 summoner0 0).result =
      some (pageOfSize 100 1 ++ pageOfSize 100 2 ++ pageOfSize 37 3, none) ∧
    gets (getMatches 3 cfg0 upstream237 summoner0 0).trace =
      [matchlistUrl cfg0 summoner0 0, matchlistUrl cfg0 summoner0 100,
        matchlistUrl cfg0 summoner0 200] ∧
    (pageOfSize 100 1 ++ pageOfSize 100 2 ++ pageOfSize 37 3).length = 237) ∧
    ((getMatches 2 cfg0 upstream100 summoner0 0).result = some (pageOfSize 100 1, none) ∧
    gets (getMatches 2 cfg0 upstream100 summoner0 0).trace =
      [matchlistUrl cfg0 summoner0 0, matchlistUrl cfg0 summoner0 100] ∧
    (pageOfSize 100 1).length = 100) := by
  have h := getMatches_pagination cfg0 upstream237 summoner0 0
    [pageOfSize 100 1, pageOfSize 100 2] (pageOfSize 37 3)
    (by
      intro p hp
      simp only [List.mem_cons, List.mem_singleton, List.not_mem_nil, or_false] at hp
      rcases hp with rfl | rfl <;> exact List.length_replicate _ _)
    (by rw [pageOfSize, List.length_replicate]; norm_num) (by norm_num)
    (by
      intro i h
      have h3 : i < 3 := by simpa using h
      interval_cases i
      · exact ⟨_, rfl, rfl⟩
      · exact ⟨_, rfl, rfl⟩
      · exact ⟨_, rfl, rfl⟩)
    3 (by simp)
  have h2 := getMatches_pagination cfg0 upstream100 summoner0 0
    [pageOfSize 100 1] []
    (by
      intro p hp
      simp only [List.mem_singleton] at hp
      rw [hp]; exact List.length_replicate _ _)
    (by simp) (by norm_num)
    (by
      intro i h
      have h3 : i < 2 := by simpa using h
      interval_cases i
      · exact ⟨_, rfl, rfl⟩
      · exact ⟨_, rfl, rfl⟩)
    2 (by simp)
  refine ⟨⟨?_, ?_, ?_⟩, ⟨?_, ?_, ?_⟩⟩
  · rw [h.1]; simp only [List.flatten_append, List.flatten_cons, List.flatten_nil,
      List.append_nil, List.append_assoc]
  · rw [h.2.2.1]; rfl
  · simp only [pageOfSize, List.length_append, List.length_replicate]
  · rw [h2.1]; simp only [List.flatten_append, List.flatten_cons, List.flatten_nil,
      List.append_nil, List.append_assoc, List.nil_append]
  · rw [h2.2.2.1]; rfl
  · simp only [pageOfSize, List.length_replicate]

/-! ## Aggregation (sumDurationAsHours) -/

section DurationLemmas

theorem getMatchDuration_trace (cfg : Config) (up : Upstream σ) (matchID : Int) (s : σ) :
    (getMatchDuration cfg up matchID s).trace = gated (matchUrl cfg matchID) := by
  unfold getMatchDuration
  rcases up.get s (matchUrl cfg matchID) with ⟨reply, s1⟩
  cases reply with
  | getError e => rfl
  | readError e => rfl
  | body raw =>
    simp only
    cases raw.asMatchDuration <;> rfl

theorem getMatchDuration_state (cfg : Config) (up : Upstream σ) (matchID : Int) (s : σ) :
    (getMatchDuration cfg up matchID s).state = (up.get s (matchUrl cfg matchID)).2 := by
  unfold getMatchDuration
  rcases up.get s (matchUrl cfg matchID) with ⟨reply, s1⟩
  cases reply with
  | getError e => rfl
  | readError e => rfl
  | body raw =>
    simp only
    cases raw.asMatchDuration <;> rfl

theorem getMatchDuration_ok (cfg : Config) (up : Upstream σ) (matchID : Int) (s : σ) (d : Nat)
    (h : IsDuration (up.get s (matchUrl cfg matchID)).1 d) :
    (getMatchDuration cfg up matchID s).result = (d, none) := by
  obtain ⟨raw, hr, hraw⟩ := h
  unfold getMatchDuration
  rcases hg : up.get s (matchUrl cfg matchID) with ⟨reply, s1⟩
  rw [hg] at hr
  simp only at hr
  subst hr
  simp [hraw]

theorem getMatchDuration_fails (cfg : Config) (up : Upstream σ) (matchID : Int) (s : σ)
    (e : GoError) (h : DurationFails (up.get s (matchUrl cfg matchID)).1 e) :
    (getMatchDuration cfg up matchID s).result = (0, some e) := by
  unfold getMatchDuration
  rcases hg : up.get s (matchUrl cfg matchID) with ⟨reply, s1⟩
  rw [hg] at h
  rcases h with h | h | ⟨raw, h, hraw⟩ <;> simp only at h <;> subst h <;> simp [*]

/-- While the fetches succeed the loop goes on: after the matches of pre it stands at the
rest of the slice with the durations added, having issued one GET per match of pre. -/
theorem sumDurationLoop_leading (cfg : Config) (up : Upstream σ) (len : Nat)
    (tail : List MatchPtr) :
    ∀ (pre : List Match) (ds : List Nat) (index duration : Nat) (s : σ),
      List.Forall₂ IsDuration (serveDurations cfg up pre s).1 ds →
      (sumDurationLoop cfg up len index (pre.map some ++ tail) duration s).result =
        (sumDurationLoop cfg up len (index + pre.length) tail (addDurations duration ds)
          (serveDurations cfg up pre s).2).result ∧
      gets (sumDurationLoop cfg up len index (pre.map some ++ tail) duration s).trace =
        pre.map (fun m => matchUrl cfg m.GameID) ++
          gets (sumDurationLoop cfg up len (index + pre.length) tail (addDurations duration ds)
            (serveDurations cfg up pre s).2).trace ∧
      (sumDurationLoop cfg up len index (pre.map some ++ tail) duration s).state =
        (sumDurationLoop cfg up len (index + pre.length) tail (addDurations duration ds)
          (serveDurations cfg up pre s).2).state := by
  intro pre
  induction pre with
  | nil =>
    intro ds index duration s h
    cases h
    simp [serveDurations, addDurations]
  | cons m rest ih =>
    intro ds index duration s h
    simp only [serveDurations] at h
    cases h with
    | cons hd htl =>
      rename_i d ds1
      have hok := getMatchDuration_ok cfg up m.GameID s d hd
      have hst := getMatchDuration_state cfg up m.GameID s
      have htr := getMatchDuration_trace cfg up m.GameID s
      have ih1 := ih ds1 (index + 1) (wrapUint64 (duration + d))
        (up.get s (matchUrl cfg m.GameID)).2 htl
      simp only [List.map_cons, List.cons_append, sumDurationLoop, hok, hst, htr,
        serveDurations, List.length_cons, addDurations, List.foldl_cons, gets_append,
        gets_gated]
      have hidx : index + (rest.length + 1) = index + 1 + rest.length := by omega
      rw [hidx]
      simp only [addDurations] at ih1
      refine ⟨ih1.1, ?_, ih1.2.2⟩
      have hlog : gets (if (cfg.verbose && index % 19 == 0) = true then
          [Event.log ⟨index + 1, duration / 60 / 60, len - index + 1⟩] else []) = [] := by
        split <;> rfl
      rw [hlog]
      exact congrArg (List.cons _) ih1.2.1

theorem addDurations_of_lt (ds : List Nat) :
    ∀ (duration : Nat), duration + ds.sum < 2 ^ 64 → addDurations duration ds = duration + ds.sum := by
  induction ds with
  | nil => intro duration _; simp [addDurations]
  | cons d rest ih =>
    intro duration h
    simp only [List.sum_cons] at h
    have hw : wrapUint64 (duration + d) = duration + d := by
      unfold wrapUint64
      exact Nat.mod_eq_of_lt (by omega)
    have := ih (duration + d) (by omega)
    simp only [addDurations, List.foldl_cons, hw, List.sum_cons] at this ⊢
    rw [this]
    omega

theorem sum_div_le_div_sum (ds : List Nat) : (ds.map (fun d => d / 3600)).sum ≤ ds.sum / 3600 := by
  induction ds with
  | nil => simp
  | cons d rest ih =>
    simp only [List.map_cons, List.sum_cons]
    have h1 := Nat.div_add_mod d 3600
    have h2 := Nat.div_add_mod rest.sum 3600
    have h3 : d / 3600 + rest.sum / 3600 ≤ (d + rest.sum) / 3600 := by
      rw [Nat.le_div_iff_mul_le (by norm_num)]
      omega
    omega

end DurationLemmas

/-- C3. If the duration fetches for the matches of a history all succeed, with durations ds
whose sum S is below 2^64, then sumDurationAsHours returns (S / 3600, nil): the division is
applied once to the total, so 3600 * result is at most S, S is below 3600 * (result + 1),
and the result is at least the sum of the hours of the single matches. -/
theorem sumDurationAsHours_floor (cfg : Config) (up : Upstream σ) (s : σ) (ms : List Match)
    (ds : List Nat) (hup : List.Forall₂ IsDuration (serveDurations cfg up ms s).1 ds)
    (hsum : ds.sum < 2 ^ 64) :
    (sumDurationAsHours cfg up (ms.map some) s).result = some (ds.sum / 3600, none) ∧
    3600 * (ds.sum / 3600) ≤ ds.sum ∧ ds.sum < 3600 * (ds.sum / 3600 + 1) ∧
    (ds.map (fun d => d / 3600)).sum ≤ ds.sum / 3600 := by
  refine ⟨?_, Nat.mul_div_le _ _, Nat.lt_mul_div_succ _ (by norm_num), sum_div_le_div_sum ds⟩
  have h := (sumDurationLoop_leading cfg up (ms.map some).length [] ms ds 0 0 s hup).1
  simp only [List.append_nil] at h
  unfold sumDurationAsHours
  rw [h, addDurations_of_lt ds 0 (by omega)]
  simp [sumDurationLoop, Nat.div_div_eq_div_mul]

/-- Witness for C3: durations of 3599 and 3601 seconds are reported as 2 hours. -/
theorem sumDurationAsHours_floor_witness :
    (sumDurationAsHours cfg0 upstreamTwoHours [some ⟨1⟩, some ⟨2⟩] 0).result = some (2, none) :=
  (sumDurationAsHours_floor cfg0 upstreamTwoHours 0 [⟨1⟩, ⟨2⟩] [3599, 3601]
    (List.Forall₂.cons ⟨_, rfl, rfl⟩ (List.Forall₂.cons ⟨_, rfl, rfl⟩ List.Forall₂.nil))
    (by norm_num)).1

/-- C4. If the duration fetches for the first k - 1 matches (pre) succeed and the fetch for
match k (m) fails with the error e, then sumDurationAsHours returns (0, e), whatever the
rest of the history is: no partial sum, the error of the first failing fetch, and GETs
for the first k matches only. -/
theorem sumDurationAsHours_first_failure (cfg : Config) (up : Upstream σ) (s : σ)
    (pre : List Match) (m : Match) (rest : List MatchPtr) (ds : List Nat) (e : GoError)
    (hpre : List.Forall₂ IsDuration (serveDurations cfg up pre s).1 ds)
    (hfail : DurationFails (up.get (serveDurations cfg up pre s).2 (matchUrl cfg m.GameID)).1 e) :
    (sumDurationAsHours cfg up (pre.map some ++ some m :: rest) s).result = some (0, some e) ∧
    gets (sumDurationAsHours cfg up (pre.map some ++ some m :: rest) s).trace =
      (pre ++ [m]).map (fun x => matchUrl cfg x.GameID) ∧
    (gets (sumDurationAsHours cfg up (pre.map some ++ some m :: rest) s).trace).length =
      pre.length + 1 := by
  have h := sumDurationLoop_leading cfg up (pre.map some ++ some m :: rest).length
    (some m :: rest) pre ds 0 0 s hpre
  have hres := getMatchDuration_fails cfg up m.GameID (serveDurations cfg up pre s).2 e hfail
  have htr := getMatchDuration_trace cfg up m.GameID (serveDurations cfg up pre s).2
  have hgets : gets (sumDurationAsHours cfg up (pre.map some ++ some m :: rest) s).trace =
      (pre ++ [m]).map (fun x => matchUrl cfg x.GameID) := by
    unfold sumDurationAsHours
    rw [h.2.1]
    simp [sumDurationLoop, hres, htr, gets_gated]
  refine ⟨?_, hgets, ?_⟩
  · unfold sumDurationAsHours
    rw [h.1]
    simp [sumDurationLoop, hres]
  · rw [hgets]
    simp

/-- Witness for C4: of five matches the third fetch fails; the result is (0, error) and
three GETs are issued. -/
theorem sumDurationAsHours_first_failure_witness :
    (sumDurationAsHours cfg0 upstreamThirdFails
      [some ⟨11⟩, some ⟨12⟩, some ⟨13⟩, some ⟨14⟩, some ⟨15⟩] 0).result =
      some (0, some "connection reset") ∧
    gets (sumDurationAsHours cfg0 upstreamThirdFails
      [some ⟨11⟩, some ⟨12⟩, some ⟨13⟩, some ⟨14⟩, some ⟨15⟩] 0).trace =
      [matchUrl cfg0 11, matchUrl cfg0 12, matchUrl cfg0 13] := by
  have h := sumDurationAsHours_first_failure cfg0 upstreamThirdFails 0 [⟨11⟩, ⟨12⟩] ⟨13⟩
    [some ⟨14⟩, some ⟨15⟩] [1800, 2400] "connection reset"
    (List.Forall₂.cons ⟨_, rfl, rfl⟩ (List.Forall₂.cons ⟨_, rfl, rfl⟩ List.Forall₂.nil))
    (Or.inl rfl)
  exact ⟨h.1, h.2.1⟩

section VerboseLemmas

theorem withoutLogs_append (a b : List Event) :
    withoutLogs (a ++ b) = withoutLogs a ++ withoutLogs b := by
  simp [withoutLogs]

theorem withoutLogs_gated (url : Url) : withoutLogs (gated url) = gated url := rfl

theorem gets_withoutLogs (tr : List Event) : gets (withoutLogs tr) = gets tr := by
  induction tr with
  | nil => rfl
  | cons e rest ih =>
    cases e with
    | wait l => simpa [withoutLogs, isLog, gets] using ih
    | get u => simpa [withoutLogs, isLog, gets] using ih
    | log l => simpa [withoutLogs, isLog, gets] using ih

theorem getMatchDuration_withVerbose (cfg : Config) (up : Upstream σ) (matchID : Int) (s : σ)
    (v : Bool) :
    getMatchDuration (withVerbose cfg v) up matchID s = getMatchDuration cfg up matchID s := rfl

theorem sumDurationLoop_verbose (cfg : Config) (up : Upstream σ) (len : Nat) :
    ∀ (history : List MatchPtr) (index duration : Nat) (s : σ),
      (sumDurationLoop (withVerbose cfg true) up len index history duration s).result =
        (sumDurationLoop (withVerbose cfg false) up len index history duration s).result ∧
      (sumDurationLoop (withVerbose cfg true) up len index history duration s).state =
        (sumDurationLoop (withVerbose cfg false) up len index history duration s).state ∧
      withoutLogs (sumDurationLoop (withVerbose cfg true) up len index history duration s).trace =
        (sumDurationLoop (withVerbose cfg false) up len index history duration s).trace := by
  intro history
  induction history with
  | nil => intro index duration s; exact ⟨rfl, rfl, rfl⟩
  | cons mp rest ih =>
    intro index duration s
    cases mp with
    | none => exact ⟨rfl, rfl, rfl⟩
    | some m =>
      simp only [sumDurationLoop, getMatchDuration_withVerbose]
      have htr := getMatchDuration_trace cfg up m.GameID s
      rcases hr : (getMatchDuration cfg up m.GameID s).result with ⟨d, err⟩
      cases err with
      | some e =>
        simp only [true_and]
        rw [htr]; rfl
      | none =>
        simp only
        have ih1 := ih (index + 1) (wrapUint64 (duration + d))
          (getMatchDuration cfg up m.GameID s).state
        refine ⟨ih1.1, ih1.2.1, ?_⟩
        rw [withoutLogs_append, withoutLogs_append, ih1.2.2, htr, withoutLogs_gated]
        have hT : withoutLogs (if ((withVerbose cfg true).verbose && index % 19 == 0) = true then
            [Event.log ⟨index + 1, duration / 60 / 60, len - index + 1⟩] else []) = [] := by
          split <;> rfl
        have hF : (if ((withVerbose cfg false).verbose && index % 19 == 0) = true then
            [Event.log ⟨index + 1, duration / 60 / 60, len - index + 1⟩] else []) = [] := by
          simp [withVerbose]
        rw [hT, hF]

end VerboseLemmas

/-- C9. Progress reporting is purely observational: for every history and every upstream,
sumDurationAsHours run with verbose set and with verbose unset returns the same result,
issues the same GETs in the same order and leaves the upstream in the same state; the
trace of the verbose run is that of the silent run with progress lines added, and the
silent run emits no progress line. -/
theorem sumDurationAsHours_verbose_observational (cfg : Config) (up : Upstream σ)
    (history : List MatchPtr) (s : σ) :
    (sumDurationAsHours (withVerbose cfg true) up history s).result =
      (sumDurationAsHours (withVerbose cfg false) up history s).result ∧
    gets (sumDurationAsHours (withVerbose cfg true) up history s).trace =
      gets (sumDurationAsHours (withVerbose cfg false) up history s).trace ∧
    (sumDurationAsHours (withVerbose cfg true) up history s).state =
      (sumDurationAsHours (withVerbose cfg false) up history s).state ∧
    withoutLogs (sumDurationAsHours (withVerbose cfg true) up history s).trace =
      (sumDurationAsHours (withVerbose cfg false) up history s).trace ∧
    withoutLogs (sumDurationAsHours (withVerbose cfg false) up history s).trace =
      (sumDurationAsHours (withVerbose cfg false) up history s).trace := by
  have h := sumDurationLoop_verbose cfg up history.length history 0 0 s
  unfold sumDurationAsHours
  refine ⟨h.1, ?_, h.2.1, h.2.2, ?_⟩
  · rw [← h.2.2, gets_withoutLogs]
  · rw [← h.2.2]
    simp [withoutLogs, List.filter_filter]

/-! ## Rate gating of every GET -/

section GatingLemmas

theorem getSummoner_trace (cfg : Config) (up : Upstream σ) (s : σ) :
    (getSummoner cfg up s).trace = gated (summonerUrl cfg) := by
  unfold getSummoner
  rcases up.get s (summonerUrl cfg) with ⟨reply, s1⟩
  cases reply with
  | getError e => rfl
  | readError e => rfl
  | body raw =>
    simp only
    cases raw.asSummoner <;> rfl

theorem getMatchesLoop_trace (cfg : Config) (up : Upstream σ) (summoner : Summoner) :
    ∀ (fuel : Nat) (acc : List MatchPtr) (idx : Int) (s : σ),
      ∃ n, n ≤ fuel ∧
        (getMatchesLoop cfg up summoner fuel acc idx s).trace =
          (listUrls cfg summoner n idx).flatMap gated := by
  intro fuel
  induction fuel with
  | zero => intro acc idx s; exact ⟨0, le_refl _, rfl⟩
  | succ fuel ih =>
    intro acc idx s
    simp only [getMatchesLoop]
    rcases up.get s (matchlistUrl cfg summoner idx) with ⟨reply, s1⟩
    cases reply with
    | getError e => exact ⟨1, by omega, by simp [listUrls, gated]⟩
    | readError e => exact ⟨1, by omega, by simp [listUrls, gated]⟩
    | body raw =>
      simp only
      cases raw.asMatches with
      | error e => exact ⟨1, by omega, by simp [listUrls, gated]⟩
      | ok m =>
        simp only
        by_cases hlen : m.Matches.length = 100
        · obtain ⟨n, hn, htr⟩ := ih (acc ++ m.Matches) (wrapInt64 (idx + 100)) s1
          refine ⟨n + 1, by omega, ?_⟩
          simp [hlen, htr, listUrls, gated]
        · exact ⟨1, by omega, by simp [hlen, listUrls, gated]⟩

end GatingLemmas

/-- C5. Every GET is gated: ratelimitCheck waits on the one-second limiter first and on
the two-minute limiter second; the effects of getSummoner and of getMatchDuration are
exactly one ratelimitCheck followed by one GET; and the effects of getMatches, however far
its loop runs, are a sequence of blocks, one per iteration, each one ratelimitCheck
followed by the GET of that iteration. So no GET lacks its two waits right before it and
no wait lacks its GET. -/
theorem every_get_is_rate_gated (cfg : Config) (up : Upstream σ) (summoner : Summoner)
    (matchID : Int) (s : σ) :
    ratelimitCheck =
      [Event.wait RateLimiter.secondRateLimit, Event.wait RateLimiter.twoMinuteRateLimit] ∧
    (getSummoner cfg up s).trace = ratelimitCheck ++ [Event.get (summonerUrl cfg)] ∧
    (getMatchDuration cfg up matchID s).trace =
      ratelimitCheck ++ [Event.get (matchUrl cfg matchID)] ∧
    ∀ fuel, ∃ n, n ≤ fuel ∧
      (getMatches fuel cfg up summoner s).trace =
        (listUrls cfg summoner n 0).flatMap (fun url => ratelimitCheck ++ [Event.get url]) :=
  ⟨rfl, getSummoner_trace cfg up s, getMatchDuration_trace cfg up matchID s,
    fun fuel => getMatchesLoop_trace cfg up summoner fuel [] 0 s⟩

/-! ## Termination of pagination -/

section TerminationLemmas

theorem getMatchesLoop_gets_pos (cfg : Config) (up : Upstream σ) (summoner : Summoner)
    (f : Nat) (acc : List MatchPtr) (idx : Int) (s : σ) :
    1 ≤ (gets (getMatchesLoop cfg up summoner (f + 1) acc idx s).trace).length := by
  simp only [getMatchesLoop]
  rcases up.get s (matchlistUrl cfg summoner idx) with ⟨reply, s1⟩
  cases reply with
  | getError e => simp [gets_append, gets, ratelimitCheck]
  | readError e => simp [gets_append, gets, ratelimitCheck]
  | body raw =>
    simp only
    cases raw.asMatches with
    | error e => simp [gets_append, gets, ratelimitCheck]
    | ok m =>
      simp only
      split <;> simp [gets_append, gets, ratelimitCheck]

/-- The loop returns, given enough fuel, exactly when some list call is not answered
with a full page (a page of exactly 100 entries). -/
theorem getMatches_returns_iff (cfg : Config) (up : Upstream σ) (summoner : Summoner) (s : σ) :
    (∃ fuel, (getMatches fuel cfg up summoner s).result ≠ none) ↔
      ∃ n, ¬ ∃ p, IsPage (replyAt cfg up summoner n s 0) p ∧ p.length = 100 := by
  classical
  constructor
  · rintro ⟨fuel, hres⟩
    by_contra hall
    push_neg at hall
    apply hres
    have h := getMatchesLoop_full cfg up summoner 0 fuel [] 0 s (fun i _ => hall i)
    rw [Nat.zero_add] at h
    unfold getMatches
    rw [h]
    rfl
  · intro hex
    have hmin : ∀ i, i < Nat.find hex →
        ∃ p, IsPage (replyAt cfg up summoner i s 0) p ∧ p.length = 100 := by
      intro i hi
      have := Nat.find_min hex hi
      exact not_not.mp this
    have hn := Nat.find_spec hex
    refine ⟨0 + 1 + Nat.find hex, ?_⟩
    unfold getMatches
    rw [getMatchesLoop_reach cfg up summoner 0 (Nat.find hex) [] 0 s hmin]
    cases hr : replyAt cfg up summoner (Nat.find hex) s 0 with
    | getError e => simp
    | readError e => simp
    | body raw =>
      cases hraw : raw.asMatches with
      | error e => simp [hraw]
      | ok m =>
        have hlen : ¬ m.Matches.length = 100 := by
          intro hlen
          exact hn ⟨m.Matches, ⟨raw, hr, hraw⟩, hlen⟩
        simp [hlen, hraw]

end TerminationLemmas

/-- C10. After a decoded page, getMatches asks for a further page exactly when that page
has exactly 100 entries. With list calls 0 .. n - 1 answered by full pages and call n
answered by the page p, and fuel for at least one more iteration: a GET number n + 2 is
issued if and only if p has 100 entries; and if p has fewer or more than 100 entries,
getMatches returns the earlier pages followed by p, with a nil error, after n + 1 GETs.
Consequently, for an upstream all of whose list calls are answered with decodable pages,
getMatches returns (for some amount of fuel) exactly when some call is answered with a
page whose length is not 100. -/
theorem getMatches_continues_iff_full_page (cfg : Config) (up : Upstream σ)
    (summoner : Summoner) (s : σ) :
    (∀ (n : Nat) (p : List MatchPtr) (fuel : Nat),
      (∀ i, i < n → ∃ q, IsPage (replyAt cfg up summoner i s 0) q ∧ q.length = 100) →
      IsPage (replyAt cfg up summoner n s 0) p → n + 1 < fuel →
      (n + 1 < (gets (getMatches fuel cfg up summoner s).trace).length ↔ p.length = 100) ∧
      (p.length ≠ 100 →
        (getMatches fuel cfg up summoner s).result =
          some (pagesUpTo cfg up summoner n s 0 ++ p, none) ∧
        (gets (getMatches fuel cfg up summoner s).trace).length = n + 1)) ∧
    ((∀ i, ∃ q, IsPage (replyAt cfg up summoner i s 0) q) →
      ((∃ fuel, (getMatches fuel cfg up summoner s).result ≠ none) ↔
        ∃ n, (pageOf (replyAt cfg up summoner n s 0)).length ≠ 100)) := by
  constructor
  · intro n p fuel hprev hpage hfuel
    obtain ⟨f, rfl⟩ : ∃ f, fuel = f + 1 + 1 + n := ⟨fuel - (n + 2), by omega⟩
    obtain ⟨raw, hr, hraw⟩ := hpage
    have hrun := getMatchesLoop_reach cfg up summoner (f + 1) n [] 0 s hprev
    rw [hr] at hrun
    simp only [hraw] at hrun
    unfold getMatches
    rw [hrun]
    by_cases hlen : p.length = 100
    · have hpos := getMatchesLoop_gets_pos cfg up summoner f
        ([] ++ pagesUpTo cfg up summoner (n + 1) s 0) (offsetAt (n + 1) 0)
        (stateAt cfg up summoner (n + 1) s 0)
      simp only [hlen, ne_eq, not_true_eq_false, if_false, gets_append, gets_flatMap_gated,
        List.length_append, listUrls_length, iff_true, false_implies, and_true]
      omega
    · simp [hlen, gets_flatMap_gated, listUrls_length]
  · intro hdec
    rw [getMatches_returns_iff]
    constructor
    · rintro ⟨n, hn⟩
      refine ⟨n, fun hlen => hn ?_⟩
      obtain ⟨q, hq⟩ := hdec n
      exact ⟨q, hq, by rw [← pageOf_isPage hq]; exact hlen⟩
    · rintro ⟨n, hn⟩
      refine ⟨n, ?_⟩
      rintro ⟨p, hp, hlen⟩
      exact hn (by rw [pageOf_isPage hp]; exact hlen)

/-- Witness for C10: an upstream that answers every list call with a page of 101 entries.
getMatches stops after the first call and returns the 101 entries. -/
theorem getMatches_continues_iff_full_page_witness :
    (getMatches 2 cfg0 upstream101 summoner0 ()).result = some (pageOfSize 101 1, none) ∧
    (gets (getMatches 2 cfg0 upstream101 summoner0 ()).trace).length = 1 ∧
    ∃ fuel, (getMatches fuel cfg0 upstream101 summoner0 ()).result ≠ none := by
  have h := getMatches_continues_iff_full_page cfg0 upstream101 summoner0 ()
  have hrep : ∀ i, replyAt cfg0 upstream101 summoner0 i () 0 =
      HttpReply.body (pagePayload (pageOfSize 101 1)) :=
    fun i => (congrArg Prod.fst (get_stateAt cfg0 upstream101 summoner0 i () 0)).symm
  have hlen : (pageOfSize 101 1).length ≠ 100 := by
    rw [pageOfSize, List.length_replicate]; norm_num
  have h1 := (h.1 0 (pageOfSize 101 1) 2 (fun i hi => absurd hi (Nat.not_lt_zero i))
    ⟨_, hrep 0, rfl⟩ (by norm_num)).2 hlen
  refine ⟨h1.1, h1.2, ?_⟩
  refine (h.2 (fun i => ⟨_, _, hrep i, rfl⟩)).mpr ⟨0, ?_⟩
  rw [hrep 0]
  exact hlen

/-! ## The decode failure in getMatches -/

/-- C2, the code at the failing input. The first list page is full and the second body
cannot be decoded as a match page: getMatches returns a nil history together with a nil
error. The same body makes getMatchDuration return the error of json.Unmarshal. -/
theorem getMatches_decode_failure_returns_nil_error :
    (getMatches 2 cfg0 upstreamGarbageSecond summoner0 0).result = some ([], none) ∧
    gets (getMatches 2 cfg0 upstreamGarbageSecond summoner0 0).trace =
      [matchlistUrl cfg0 summoner0 0, matchlistUrl cfg0 summoner0 100] ∧
    (getMatchDuration cfg0 (scripted [HttpReply.body garbagePayload]) 7 0).result =
      (0, some "invalid character") :=
  ⟨rfl, rfl, rfl⟩

/-! ## The Limiter of ratelimit.go on concrete runs -/

/-- C7, the code at the failing input. With tries = 1, a reset that falls between the
statement locked = true and the deferred statements of a call of Wait that does not block
unlocks the mutex under the caller; the deferred Unlock of Wait then unlocks a mutex that
is not held, and the program aborts. -/
theorem wait_unlocks_unheld_mutex :
    (runSchedule tickInsideWait (NewLimiter 1)).map (fun st => (st.fatal, st.caller)) =
      some (true, WaitPc.unlock) := by
  decide

/-- C6, the code at the failing input. With tries = 1, in the run staleUnlock two calls of
Wait begin and return between the first reset tick and the second: two returns within one
period, more than tries. The program has not aborted. -/
theorem two_returns_in_one_period :
    (runSchedule staleUnlock (NewLimiter 1)).map
      (fun st => (st.tries, st.observed, returnsPerPeriod st.observed, st.fatal)) =
      some (1, [Obs.tick, Obs.waitReturned, Obs.waitReturned, Obs.tick], [0, 2, 0], false) := by
  decide

/-- C8, the code at the failing input. With tries = 1, the run staleUnlock ends with
triesLeft = -1: the second call of Wait found triesLeft = 0, blocked, was released by the
late Unlock of the ticker without a reset in between, and decremented; the value stays
until the reset that follows the second tick. The program has not aborted. -/
theorem triesLeft_below_zero :
    (runSchedule staleUnlock (NewLimiter 1)).map
      (fun st => (st.limiter.triesLeft, st.tries, st.fatal)) = some (-1, 1, false) := by
  decide

end WastedOnLol
